import Mathlib

/-!
Verification of the async-component producer (`cmd/producer/main.go`).

Go strings and byte slices are modelled as `List Nat` (each element a byte
value < 256); a Go `string` is an arbitrary byte sequence, so this models it
exactly.  The helper `gs` converts a Lean string literal to its UTF-8 bytes so
that source-code string constants can be written down verbatim.

External collaborators (the Redis client library, the x509/pem certificate
parser, the gouuidv6 identifier library, the HTTP runtime) are modelled at
their call boundary, as documented on each definition.
-/

/-- UTF-8 encoding of a single Unicode code point, as Go's `utf8.EncodeRune`
produces for valid runes (the encoder in `encoding/json` writes these bytes
for each decoded rune of a marshalled string). -/
def utf8EncodeCP (c : Nat) : List Nat :=
  if c < 0x80 then [c]
  else if c < 0x800 then [0xC0 + c / 64, 0x80 + c % 64]
  else if c < 0x10000 then [0xE0 + c / 4096, 0x80 + c / 64 % 64, 0x80 + c % 64]
  else [0xF0 + c / 262144, 0x80 + c / 4096 % 64, 0x80 + c / 64 % 64, 0x80 + c % 64]

/-- Bytes of a Lean string literal: lets us write Go source string constants
(`"http://"`, `"data"`, header names, log texts) as byte lists. -/
def gs (s : String) : List Nat :=
  s.data.foldr (fun c acc => utf8EncodeCP c.toNat ++ acc) []

/-- Remainder of `l` after the leading bytes `p`, when `p` is a leading
segment of `l`; `none` otherwise. -/
def restAfter : List Nat → List Nat → Option (List Nat)
  | [], l => some l
  | _ :: _, [] => none
  | a :: as, b :: bs => if a = b then restAfter as bs else none

/-- Whether `p` occurs as a leading segment of `l`. -/
def leadingSeq (p l : List Nat) : Bool :=
  (restAfter p l).isSome

/-- Whether the byte pattern `p` occurs contiguously anywhere inside `l`. -/
def containsSeq (p : List Nat) : List Nat → Bool
  | [] => leadingSeq p []
  | b :: t => leadingSeq p (b :: t) || containsSeq p t

/-- Go's byte-wise lexicographic `<` on strings (`sort.Strings` order, used
by `encoding/json` to sort map keys). -/
def bytesLt : List Nat → List Nat → Bool
  | [], [] => false
  | [], _ :: _ => true
  | _ :: _, [] => false
  | a :: as, b :: bs =>
    if a < b then true else if b < a then false else bytesLt as bs

/-- Continuation-byte test of Go's `unicode/utf8` decoder: second and later
bytes of a multi-byte sequence must lie in `0x80..0xBF`. -/
def contB (b : Nat) : Bool := decide (0x80 ≤ b ∧ b ≤ 0xBF)

/-- Accept range for the second byte of a three-byte sequence, exactly Go's
`utf8.acceptRanges`: lead `0xE0` forces `0xA0..0xBF` (no overlong forms) and
lead `0xED` forces `0x80..0x9F` (no surrogates). -/
def utf8Accept2 (b0 b1 : Nat) : Bool :=
  if b0 = 0xE0 then decide (0xA0 ≤ b1 ∧ b1 ≤ 0xBF)
  else if b0 = 0xED then decide (0x80 ≤ b1 ∧ b1 ≤ 0x9F)
  else contB b1

/-- Accept range for the second byte of a four-byte sequence, exactly Go's
`utf8.acceptRanges`: lead `0xF0` forces `0x90..0xBF` (no overlong forms) and
lead `0xF4` forces `0x80..0x8F` (nothing above U+10FFFF). -/
def utf8Accept3 (b0 b1 : Nat) : Bool :=
  if b0 = 0xF0 then decide (0x90 ≤ b1 ∧ b1 ≤ 0xBF)
  else if b0 = 0xF4 then decide (0x80 ≤ b1 ∧ b1 ≤ 0x8F)
  else contB b1

/-- The UTF-8 bytes of U+FFFD, the replacement character Go's JSON encoder
substitutes for each byte at which `utf8.DecodeRuneInString` fails. -/
def replChar : List Nat := [0xEF, 0xBF, 0xBD]

/-- One decoding step of Go's `utf8.DecodeRuneInString`, given the first
byte and the remaining bytes: `some (rune, rest)` when a well-formed
sequence starts here, `none` when decoding fails at this byte (in which case
Go consumes exactly one byte and yields U+FFFD). -/
def utf8Step (b0 : Nat) (t0 : List Nat) : Option (Nat × List Nat) :=
  if b0 < 0x80 then some (b0, t0)
  else if 0xC2 ≤ b0 ∧ b0 ≤ 0xDF then
    match t0 with
    | b1 :: t1 =>
      if contB b1 then some ((b0 - 0xC0) * 64 + (b1 - 0x80), t1) else none
    | [] => none
  else if 0xE0 ≤ b0 ∧ b0 ≤ 0xEF then
    match t0 with
    | b1 :: b2 :: t2 =>
      if utf8Accept2 b0 b1 ∧ contB b2 then
        some ((b0 - 0xE0) * 4096 + (b1 - 0x80) * 64 + (b2 - 0x80), t2)
      else none
    | _ => none
  else if 0xF0 ≤ b0 ∧ b0 ≤ 0xF4 then
    match t0 with
    | b1 :: b2 :: b3 :: t3 =>
      if utf8Accept3 b0 b1 ∧ contB b2 ∧ contB b3 then
        some ((b0 - 0xF0) * 262144 + (b1 - 0x80) * 4096 + (b2 - 0x80) * 64 + (b3 - 0x80),
          t3)
      else none
    | _ => none
  else none

/-- Fuel-indexed worker for `utf8Sanitize`; the fuel only bounds recursion
depth (one unit per decoded rune suffices, so the list length does). -/
def utf8SanitizeGo : Nat → List Nat → List Nat
  | _, [] => []
  | 0, _ :: _ => []
  | fuel + 1, b0 :: t0 =>
    match utf8Step b0 t0 with
    | some (c, rem) => utf8EncodeCP c ++ utf8SanitizeGo fuel rem
    | none => replChar ++ utf8SanitizeGo fuel t0

/-- The byte-level effect of Go's `encoding/json` string encoder followed by
its decoder: the JSON text escaping itself is invertible, but the encoder
decodes the Go string rune by rune with `utf8.DecodeRuneInString` and emits
U+FFFD for every byte at which decoding fails (consuming one byte, exactly
Go's error behaviour).  Valid sequences are re-emitted unchanged; each
invalid byte becomes the three bytes of U+FFFD. -/
def utf8Sanitize (l : List Nat) : List Nat := utf8SanitizeGo l.length l

/-- Fuel-indexed worker for `utf8Valid`. -/
def utf8ValidGo : Nat → List Nat → Bool
  | _, [] => true
  | 0, _ :: _ => false
  | fuel + 1, b0 :: t0 =>
    match utf8Step b0 t0 with
    | some (_, rem) => utf8ValidGo fuel rem
    | none => false

/-- Go's `utf8.Valid` on a byte string: every position decodes with
`utf8Step` (so no overlong forms, no surrogates, nothing above U+10FFFF). -/
def utf8Valid (l : List Nat) : Bool := utf8ValidGo l.length l

/-- JSON documents as produced by `json.Marshal` for the `requestData` type:
only strings, arrays and objects occur.  String contents are stored as the
decoded UTF-8 bytes; the JSON text escaping layer is invertible and is below
this abstraction. -/
inductive Json where
  | jstr : List Nat → Json
  | jarr : List Json → Json
  | jobj : List (List Nat × Json) → Json

/-- The envelope type of `cmd/producer/main.go` (lines 43-49): JSON tags
`id`, `url`, `body`, `header`, `method`.  Go strings are byte lists; the
`map[string][]string` header is modelled as an association list, whose
canonical (Go-map-equality) form is key-sorted and duplicate-free. -/
structure requestData where
  ID : List Nat
  ReqURL : List Nat
  ReqBody : List Nat
  ReqHeader : List (List Nat × List (List Nat))
  ReqMethod : List Nat
  deriving DecidableEq

def keyID : List Nat := gs "id"

def keyURL : List Nat := gs "url"

def keyBody : List Nat := gs "body"

def keyHeader : List Nat := gs "header"

def keyMethod : List Nat := gs "method"

def keyData : List Nat := gs "data"

/-- Insert one header entry into a key-ordered list (byte-wise key order). -/
def insertByKey (kv : List Nat × List (List Nat)) :
    List (List Nat × List (List Nat)) → List (List Nat × List (List Nat))
  | [] => [kv]
  | hd :: tl => if bytesLt kv.1 hd.1 then kv :: hd :: tl else hd :: insertByKey kv tl

/-- Key-sorting of a header association list, modelling both the byte-wise
key sort `encoding/json` applies when marshalling a Go map and the canonical
form in which we represent a Go map value (Go map equality ignores
insertion order). -/
def sortByKey : List (List Nat × List (List Nat)) → List (List Nat × List (List Nat))
  | [] => []
  | kv :: tl => insertByKey kv (sortByKey tl)

/-- Whether the keys of a header association list are strictly ascending in
byte order: the canonical-form test for our Go-map representation. -/
def keysSorted : List (List Nat × List (List Nat)) → Bool
  | [] => true
  | [_] => true
  | a :: b :: t => bytesLt a.1 b.1 && keysSorted (b :: t)

/-- Marshalling of one header entry: the key is string-encoded and each
value of the value slice is string-encoded, in slice order. -/
def encodeHeaderEntry (kv : List Nat × List (List Nat)) : List Nat × Json :=
  (utf8Sanitize kv.1, Json.jarr (kv.2.map (fun v => Json.jstr (utf8Sanitize v))))

/-- `json.Marshal` on `requestData` (line 139): an object with the five
tagged fields in struct order; every Go string passes through the encoder's
UTF-8 coercion (`utf8Sanitize`); the header map is marshalled with its keys
in sorted byte order. -/
def marshalRequestData (d : requestData) : Json :=
  Json.jobj [
    (keyID, Json.jstr (utf8Sanitize d.ID)),
    (keyURL, Json.jstr (utf8Sanitize d.ReqURL)),
    (keyBody, Json.jstr (utf8Sanitize d.ReqBody)),
    (keyHeader, Json.jobj ((sortByKey d.ReqHeader).map encodeHeaderEntry)),
    (keyMethod, Json.jstr (utf8Sanitize d.ReqMethod))]

/-- Find the value of a JSON object member; as in `json.Unmarshal`, a later
duplicate member overwrites an earlier one. -/
def jlookup (fs : List (List Nat × Json)) (k : List Nat) : Option Json :=
  fs.foldl (fun acc kv => if kv.1 = k then some kv.2 else acc) none

/-- Decode a JSON value into a Go string, as `json.Unmarshal` does for a
field of type `string`: anything but a JSON string is a type error. -/
def jsonAsStr : Json → Option (List Nat)
  | Json.jstr s => some s
  | _ => none

/-- Decode a list of JSON values into Go strings, all-or-nothing. -/
def strListOfJsons : List Json → Option (List (List Nat))
  | [] => some []
  | v :: vs =>
    match jsonAsStr v, strListOfJsons vs with
    | some s, some l => some (s :: l)
    | _, _ => none

/-- Decode a JSON value into a Go `[]string`: an array whose elements are
all strings. -/
def jsonAsStrList : Json → Option (List (List Nat))
  | Json.jarr vs => strListOfJsons vs
  | _ => none

/-- Decode the members of a JSON object into header entries, in member
order. -/
def decodeHeaderEntries : List (List Nat × Json) →
    Option (List (List Nat × List (List Nat)))
  | [] => some []
  | (k, v) :: rest =>
    match jsonAsStrList v, decodeHeaderEntries rest with
    | some vs, some r => some ((k, vs) :: r)
    | _, _ => none

/-- A `string` struct field under `json.Unmarshal`: a missing member leaves
the zero value (empty string), a non-string member is a type error. -/
def getStrField (fs : List (List Nat × Json)) (k : List Nat) : Option (List Nat) :=
  match jlookup fs k with
  | none => some []
  | some v => jsonAsStr v

/-- The `map[string][]string` field under `json.Unmarshal`: a missing member
leaves the zero value (empty map); an object member is decoded entry-wise
into a map, represented canonically key-sorted.  Header keys are assumed
distinct, as `net/http` canonicalised header keys are. -/
def getHeaderField (fs : List (List Nat × Json)) :
    Option (List (List Nat × List (List Nat))) :=
  match jlookup fs keyHeader with
  | none => some []
  | some (Json.jobj hfs) => (decodeHeaderEntries hfs).map sortByKey
  | some _ => none

/-- `json.Unmarshal` of a JSON document into `requestData`: a top-level
object whose five tagged fields decode at their expected types. -/
def unmarshalRequestData (j : Json) : Option requestData :=
  match j with
  | Json.jobj fs =>
    match getStrField fs keyID, getStrField fs keyURL, getStrField fs keyBody,
        getHeaderField fs, getStrField fs keyMethod with
    | some i, some u, some b, some h, some m =>
      some { ID := i, ReqURL := u, ReqBody := b, ReqHeader := h, ReqMethod := m }
    | _, _, _, _, _ => none
  | _ => none

/-- A `requestData` value in which every Go string is well-formed UTF-8 and
the header association list is in the canonical form of a Go map value
(strictly key-sorted, hence duplicate-free): exactly the envelopes on which
the JSON encoder's string coercion is the identity and whose header
representation is unaffected by map-key ordering. -/
def goodRequestData (d : requestData) : Prop :=
  utf8Valid d.ID = true ∧ utf8Valid d.ReqURL = true ∧ utf8Valid d.ReqBody = true ∧
    utf8Valid d.ReqMethod = true ∧
    keysSorted d.ReqHeader = true ∧
    ∀ kv ∈ d.ReqHeader, utf8Valid kv.1 = true ∧ ∀ v ∈ kv.2, utf8Valid v = true

/-- Environment configuration (lines 36-41).  `RequestSizeLimit` mirrors the
Go `int64` (default `0` when `REQUEST_SIZE_LIMIT` is unset). -/
structure envInfo where
  StreamName : List Nat
  RedisAddress : List Nat
  RequestSizeLimit : Int
  TlsCert : List Nat
  deriving DecidableEq

/-- An inbound HTTP request as the handler observes it: method, the value
`r.URL.String()` returns for a server request (path plus query), the header
map (canonical keys, as stored by `net/http`), and the raw body bytes. -/
structure HttpRequest where
  method : List Nat
  urlStr : List Nat
  headers : List (List Nat × List (List Nat))
  body : List Nat

/-- `r.Header.Get(k)` from `net/http`: the first value stored under the key,
or the empty string when the key is absent or has no values. -/
def headerGet (hs : List (List Nat × List (List Nat))) (k : List Nat) : List Nat :=
  match hs with
  | [] => []
  | (k0, vs) :: rest =>
    if k0 = k then (match vs with | [] => [] | v :: _ => v) else headerGet rest k

def hostHeaderKey : List Nat := gs "Async-Original-Host"

/-- Envelope construction in `handleRequest` (lines 130-138): the generated
identifier, the body bytes read, the URL rebuilt as
`"http://" + r.Header.Get("Async-Original-Host") + r.URL.String()`, the full
header map and the method. -/
def buildRequestData (idv : List Nat) (r : HttpRequest) : requestData :=
  { ID := idv
    ReqURL := gs "http://" ++ headerGet r.headers hostHeaderKey ++ r.urlStr
    ReqBody := r.body
    ReqHeader := r.headers
    ReqMethod := r.method }

/-- One `XAdd` call as issued by `myRedis.write` (lines 159-164): the stream
name from configuration and the field map `{"data": reqJSON}`. -/
structure XAddArgs where
  stream : List Nat
  values : List (List Nat × Json)

/-- The error string `fmt.Errorf("failed to publish %q: %v", id, err)`
produces (line 166); the `%q` quoting escapes nothing for the hex-and-dash
identifiers the handler generates. -/
def publishErrMsg (idv e : List Nat) : List Nat :=
  gs "failed to publish \"" ++ (idv ++ (gs "\": " ++ e))

/-- `myRedis.write` (lines 158-169).  The broker is an external
collaborator; its response to the single `XAdd` is injected as `brokerErr`
(`none` for success, `some e` for an error with text `e`).  The function
returns the `XAdd` call it issues together with its Go return value. -/
def write (s : envInfo) (reqJSON : Json) (idv : List Nat)
    (brokerErr : Option (List Nat)) : XAddArgs × Except (List Nat) Unit :=
  ({ stream := s.StreamName, values := [(keyData, reqJSON)] },
   match brokerErr with
   | some e => Except.error (publishErrMsg idv e)
   | none => Except.ok ())

/-- Observable outcome of one request: the status passed to `WriteHeader`,
the bytes written to the response body (the handler never writes any), the
log lines emitted, and the list of broker `XAdd` calls issued. -/
structure HandlerResult where
  status : Nat
  respBody : List Nat
  logs : List (List Nat)
  xaddCalls : List XAddArgs

/-- `handleRequest` (lines 114-155).  `http.MaxBytesReader` with limit `N`
lets `ioutil.ReadAll` succeed exactly when the body has at most `N` bytes
and otherwise fails with "http: request body too large"; this read outcome
is the first branch.  The generated identifier (external `gouuidv6` library,
modelled separately) is injected as `idv`, and the broker response as
`brokerErr`.  `json.Marshal` cannot fail on `requestData` (all field types
are marshallable), so the marshal-error branch of the source is
unreachable. -/
def handleRequest (env : envInfo) (idv : List Nat)
    (brokerErr : Option (List Nat)) (r : HttpRequest) : HandlerResult :=
  if (r.body.length : Int) > env.RequestSizeLimit then
    { status := 500
      respBody := []
      logs := [gs "HTTP Request body too large http: request body too large"]
      xaddCalls := [] }
  else
    let reqData := buildRequestData idv r
    let reqJSON := marshalRequestData reqData
    let wr := write env reqJSON reqData.ID brokerErr
    match wr.2 with
    | Except.error e =>
      { status := 500
        respBody := []
        logs := [gs "Error asynchronous writing request to storage " ++ e]
        xaddCalls := [wr.1] }
    | Except.ok _ =>
      { status := 202
        respBody := []
        logs := [gs "request accepted"]
        xaddCalls := [wr.1] }

/-- Options produced by `redis.ParseURL`: the connection target host:port. -/
structure RedisOptions where
  addr : List Nat
  deriving DecidableEq

/-- The client `setUpRedis` constructs: either a TLS client from parsed URL
options with a root pool built from the configured PEM text, or a plain
client with the address used verbatim, password `""` and DB `0`. -/
inductive RedisClient where
  | tlsClient : RedisOptions → (rootPoolPEM : List Nat) → RedisClient
  | plainClient : (addr : List Nat) → (password : List Nat) → (db : Nat) → RedisClient
  deriving DecidableEq

/-- `redis.ParseURL` from the go-redis library (external collaborator),
modelled on the address forms this service is configured with: a
`redis://host:port` or `rediss://host:port` URL parses to options holding
the host:port remainder; a value with any other scheme (or no scheme) is an
error. -/
def redisParseURL (s : List Nat) : Option RedisOptions :=
  match restAfter (gs "redis://") s with
  | some rest => some { addr := rest }
  | none =>
    match restAfter (gs "rediss://") s with
    | some rest => some { addr := rest }
    | none => none

/-- `x509.CertPool.AppendCertsFromPEM` from Go's standard library (external
collaborator): reports whether at least one `CERTIFICATE` PEM block parsed.
The PEM scan is modelled (a text without the block marker contains no block,
so the empty string always yields `false`); whether a found block's DER
payload parses as a certificate is abstracted by `parseDER`. -/
def appendCertsFromPEM (parseDER : List Nat → Bool) (pemText : List Nat) : Bool :=
  containsSeq (gs "-----BEGIN CERTIFICATE-----") pemText && parseDER pemText

/-- `setUpRedis` (lines 81-111), given the result `certFound` of
`AppendCertsFromPEM`.  With a cert: `redis.ParseURL(env.RedisAddress)`,
where a parse error is `log.Fatal` (modelled as `none`), then a client with
a TLS config rooted in the configured pool.  Without a cert: a plain client
with `Addr: env.RedisAddress`, password `""`, DB `0`; the address is not
parsed on this path. -/
def setUpRedis (env : envInfo) (certFound : Bool) : Option RedisClient :=
  if certFound then
    match redisParseURL env.RedisAddress with
    | none => none
    | some opt => some (RedisClient.tlsClient opt env.TlsCert)
  else
    some (RedisClient.plainClient env.RedisAddress (gs "") 0)

/-- Modelled from the spec: the time-ordered identifier generator state of
the external `gouuidv6` library (its source is not part of this repository).
Per spec sections 3 and 4.1 the identifier is "a time-ordered unique value
derived from the current wall-clock instant" that is "monotonically
increasing for same-instant collisions via a sequence component", in a
single-threaded generation context: the generator remembers the last
timestamp used and a collision-breaking sequence counter. -/
structure UuidV6State where
  lastTs : Nat
  seq : Nat

/-- Modelled from the spec: generating one identifier at clock instant `t`.
A strictly later instant restarts the sequence counter; an instant within
(or before) the last used tick reuses the last timestamp with the next
sequence value, preserving generation order. -/
def uuidGen (st : UuidV6State) (t : Nat) : UuidV6State × (Nat × Nat) :=
  if st.lastTs < t then ({ lastTs := t, seq := 0 }, (t, 0))
  else ({ lastTs := st.lastTs, seq := st.seq + 1 }, (st.lastTs, st.seq + 1))

/-- Big-endian base-16 digits of `n`, padded to width `k`. -/
def bigEndianDigits : Nat → Nat → List Nat
  | 0, _ => []
  | k + 1, n => n / 16 ^ k :: bigEndianDigits k (n % 16 ^ k)

/-- Lower-case hexadecimal digit characters, as the identifier's string
rendering uses. -/
def hexDigitChar (d : Nat) : Char :=
  if d < 10 then Char.ofNat (48 + d) else Char.ofNat (87 + d)

/-- Fixed-width lower-case hexadecimal rendering. -/
def hexFixed (k n : Nat) : List Char := (bigEndianDigits k n).map hexDigitChar

/-- Modelled from the spec: the identifier's string form, a fixed-width
hexadecimal rendering of the timestamp followed by the collision-breaking
sequence component, so that lexicographic string order follows generation
order (the dashes of the concrete UUID text sit at fixed positions and do
not affect the ordering). -/
def uuidV6String (idp : Nat × Nat) : String :=
  ⟨hexFixed 16 idp.1 ++ hexFixed 16 idp.2⟩

/-- Fixture: a configuration with a two-byte size limit, a URL-form broker
address and no certificate. -/
def envTwo : envInfo :=
  { StreamName := gs "mystream", RedisAddress := gs "redis://localhost:6379",
    RequestSizeLimit := 2, TlsCert := [] }

/-- Fixture: a request whose body is exactly two bytes. -/
def reqTwo : HttpRequest :=
  { method := gs "POST", urlStr := gs "/v1/foo?x=1",
    headers := [(gs "Async-Original-Host", [gs "example.com"])], body := [104, 105] }

/-- Fixture: a request whose body is three bytes. -/
def reqThree : HttpRequest :=
  { method := gs "POST", urlStr := gs "/v1/foo?x=1",
    headers := [(gs "Async-Original-Host", [gs "example.com"])], body := [104, 105, 106] }

/-- Fixture: an envelope whose body is the single byte 0xFF, which is not
valid UTF-8 (and which a Go string can perfectly well contain). -/
def reqDataRawByte : requestData :=
  { ID := gs "0a1b", ReqURL := gs "http://example.com/v1", ReqBody := [0xFF],
    ReqHeader := [], ReqMethod := gs "POST" }

/-- Fixture: an envelope with all strings valid UTF-8 and a canonical
key-sorted header carrying a repeated header value. -/
def reqDataGood : requestData :=
  { ID := gs "0a1b", ReqURL := gs "http://example.com/v1", ReqBody := gs "hello",
    ReqHeader := [(gs "Accept", [gs "text/html", gs "text/plain"]), (gs "X-Y", [gs "1"])],
    ReqMethod := gs "POST" }

/-- Fixture: a configuration whose broker address has no URL scheme, with no
certificate configured and the default zero size limit. -/
def envNoScheme : envInfo :=
  { StreamName := gs "s", RedisAddress := gs "localhost:6379",
    RequestSizeLimit := 0, TlsCert := [] }

/-- Fixture: a configuration carrying a PEM certificate block and a URL-form
broker address. -/
def envWithCert : envInfo :=
  { StreamName := gs "s", RedisAddress := gs "redis://broker:6379",
    RequestSizeLimit := 1000000,
    TlsCert := gs "-----BEGIN CERTIFICATE-----\nZGVtbw==\n-----END CERTIFICATE-----" }

/-- Fixture: a request with no Async-Original-Host header and an empty
body. -/
def reqNoHost : HttpRequest :=
  { method := gs "GET", urlStr := gs "/v1/foo?x=1", headers := [], body := [] }

/-- Fixture: the request of testable property 4: forwarded host
`example.com`, path and query `/v1/foo?x=1`. -/
def reqC6 : HttpRequest :=
  { method := gs "GET", urlStr := gs "/v1/foo?x=1",
    headers := [(gs "Async-Original-Host", [gs "example.com"])], body := [] }

theorem contB_bounds {b : Nat} (h : contB b = true) : 0x80 ≤ b ∧ b ≤ 0xBF := by
  simpa [contB] using h

theorem utf8Accept2_bounds {b0 b1 : Nat} (h : utf8Accept2 b0 b1 = true) :
    0x80 ≤ b1 ∧ b1 ≤ 0xBF ∧ (b0 = 0xE0 → 0xA0 ≤ b1) := by
  unfold utf8Accept2 at h
  by_cases he : b0 = 0xE0
  · rw [if_pos he] at h
    simp only [decide_eq_true_eq] at h
    exact ⟨by omega, h.2, fun _ => h.1⟩
  · rw [if_neg he] at h
    by_cases hd : b0 = 0xED
    · rw [if_pos hd] at h
      simp only [decide_eq_true_eq] at h
      exact ⟨h.1, by omega, fun hc => (he hc).elim⟩
    · rw [if_neg hd] at h
      simp only [contB, decide_eq_true_eq] at h
      exact ⟨h.1, h.2, fun hc => (he hc).elim⟩

theorem utf8Accept3_bounds {b0 b1 : Nat} (h : utf8Accept3 b0 b1 = true) :
    0x80 ≤ b1 ∧ b1 ≤ 0xBF ∧ (b0 = 0xF0 → 0x90 ≤ b1) := by
  unfold utf8Accept3 at h
  by_cases he : b0 = 0xF0
  · rw [if_pos he] at h
    simp only [decide_eq_true_eq] at h
    exact ⟨by omega, h.2, fun _ => h.1⟩
  · rw [if_neg he] at h
    by_cases hd : b0 = 0xF4
    · rw [if_pos hd] at h
      simp only [decide_eq_true_eq] at h
      exact ⟨h.1, by omega, fun hc => (he hc).elim⟩
    · rw [if_neg hd] at h
      simp only [contB, decide_eq_true_eq] at h
      exact ⟨h.1, h.2, fun hc => (he hc).elim⟩



set_option maxRecDepth 4000 in
theorem utf8Step_tail_len {b0 : Nat} {t0 : List Nat} {c : Nat} {rem : List Nat}
    (h : utf8Step b0 t0 = some (c, rem)) : rem.length ≤ t0.length := by
  unfold utf8Step at h
  repeat' split at h
  all_goals cases h
  all_goals (try simp only [List.length_cons])
  all_goals omega

set_option maxRecDepth 4000 in
theorem utf8Step_sound {b0 : Nat} {t0 : List Nat} {c : Nat} {rem : List Nat}
    (h : utf8Step b0 t0 = some (c, rem)) : utf8EncodeCP c ++ rem = b0 :: t0 := by
  unfold utf8Step at h
  repeat' split at h
  all_goals cases h
  · rename_i ha
    simp [utf8EncodeCP, if_pos ha]
  · rename_i ha hb hc
    obtain ⟨h1, h2⟩ := contB_bounds hc
    rw [utf8EncodeCP]
    rw [if_neg (by omega), if_pos (by omega)]
    simp only [List.cons_append, List.nil_append, List.cons.injEq]
    refine ⟨by omega, by omega, trivial⟩
  · rename_i ha hb hc hd
    obtain ⟨hacc, hcont⟩ := hd
    obtain ⟨h1, h2, h3⟩ := utf8Accept2_bounds hacc
    obtain ⟨h4, h5⟩ := contB_bounds hcont
    rw [utf8EncodeCP]
    rcases eq_or_ne b0 0xE0 with hz | hz
    · have := h3 hz
      rw [if_neg (by omega), if_neg (by omega), if_pos (by omega)]
      simp only [List.cons_append, List.nil_append, List.cons.injEq]
      refine ⟨by omega, by omega, by omega, trivial⟩
    · rw [if_neg (by omega), if_neg (by omega), if_pos (by omega)]
      simp only [List.cons_append, List.nil_append, List.cons.injEq]
      refine ⟨by omega, by omega, by omega, trivial⟩
  · rename_i ha hb hc hd he
    obtain ⟨hacc, hcont2, hcont3⟩ := he
    obtain ⟨h1, h2, h3⟩ := utf8Accept3_bounds hacc
    obtain ⟨h4, h5⟩ := contB_bounds hcont2
    obtain ⟨h6, h7⟩ := contB_bounds hcont3
    rw [utf8EncodeCP]
    rcases eq_or_ne b0 0xF0 with hz | hz
    · have := h3 hz
      rw [if_neg (by omega), if_neg (by omega), if_neg (by omega)]
      simp only [List.cons_append, List.nil_append, List.cons.injEq]
      refine ⟨by omega, by omega, by omega, by omega, trivial⟩
    · rw [if_neg (by omega), if_neg (by omega), if_neg (by omega)]
      simp only [List.cons_append, List.nil_append, List.cons.injEq]
      refine ⟨by omega, by omega, by omega, by omega, trivial⟩

theorem utf8SanitizeGo_fuel :
    ∀ (f g : Nat) (l : List Nat), l.length ≤ f → l.length ≤ g →
      utf8SanitizeGo f l = utf8SanitizeGo g l := by
  intro f
  induction f with
  | zero =>
    intro g l hf _
    cases l with
    | nil => cases g <;> rfl
    | cons b t => simp at hf
  | succ f ih =>
    intro g l hf hg
    cases l with
    | nil => cases g <;> rfl
    | cons b t =>
      cases g with
      | zero => simp at hg
      | succ g =>
        simp only [utf8SanitizeGo]
        cases hstep : utf8Step b t with
        | none =>
          dsimp only
          simp only [List.length_cons, Nat.succ_le_succ_iff] at hf hg
          rw [ih g t hf hg]
        | some cr =>
          obtain ⟨c, rem⟩ := cr
          dsimp only
          have hlen := utf8Step_tail_len hstep
          simp only [List.length_cons, Nat.succ_le_succ_iff] at hf hg
          rw [ih g rem (by omega) (by omega)]

theorem utf8ValidGo_fuel :
    ∀ (f g : Nat) (l : List Nat), l.length ≤ f → l.length ≤ g →
      utf8ValidGo f l = utf8ValidGo g l := by
  intro f
  induction f with
  | zero =>
    intro g l hf _
    cases l with
    | nil => cases g <;> rfl
    | cons b t => simp at hf
  | succ f ih =>
    intro g l hf hg
    cases l with
    | nil => cases g <;> rfl
    | cons b t =>
      cases g with
      | zero => simp at hg
      | succ g =>
        simp only [utf8ValidGo]
        cases hstep : utf8Step b t with
        | none => rfl
        | some cr =>
          obtain ⟨c, rem⟩ := cr
          dsimp only
          have hlen := utf8Step_tail_len hstep
          simp only [List.length_cons, Nat.succ_le_succ_iff] at hf hg
          exact ih g rem (by omega) (by omega)

theorem utf8Sanitize_cons_some {b0 : Nat} {t0 : List Nat} {c : Nat} {rem : List Nat}
    (h : utf8Step b0 t0 = some (c, rem)) :
    utf8Sanitize (b0 :: t0) = utf8EncodeCP c ++ utf8Sanitize rem := by
  have hlen := utf8Step_tail_len h
  unfold utf8Sanitize
  simp only [List.length_cons, utf8SanitizeGo, h]
  rw [utf8SanitizeGo_fuel t0.length rem.length rem (by omega) (by omega)]

theorem utf8Sanitize_cons_none {b0 : Nat} {t0 : List Nat}
    (h : utf8Step b0 t0 = none) :
    utf8Sanitize (b0 :: t0) = replChar ++ utf8Sanitize t0 := by
  unfold utf8Sanitize
  simp only [List.length_cons, utf8SanitizeGo, h]

theorem utf8Valid_cons_some {b0 : Nat} {t0 : List Nat} {c : Nat} {rem : List Nat}
    (h : utf8Step b0 t0 = some (c, rem)) :
    utf8Valid (b0 :: t0) = utf8Valid rem := by
  have hlen := utf8Step_tail_len h
  unfold utf8Valid
  simp only [List.length_cons, utf8ValidGo, h]
  exact utf8ValidGo_fuel t0.length rem.length rem (by omega) (by omega)

theorem utf8Valid_cons_none {b0 : Nat} {t0 : List Nat}
    (h : utf8Step b0 t0 = none) : utf8Valid (b0 :: t0) = false := by
  unfold utf8Valid
  simp only [List.length_cons, utf8ValidGo, h]

theorem utf8Sanitize_of_valid (l : List Nat) (hv : utf8Valid l = true) :
    utf8Sanitize l = l := by
  have main : ∀ (f : Nat) (l : List Nat), l.length ≤ f → utf8Valid l = true →
      utf8Sanitize l = l := by
    intro f
    induction f with
    | zero =>
      intro l hf _
      cases l with
      | nil => rfl
      | cons b t => simp at hf
    | succ f ih =>
      intro l hf hv
      cases l with
      | nil => rfl
      | cons b t =>
        cases hstep : utf8Step b t with
        | none => rw [utf8Valid_cons_none hstep] at hv; cases hv
        | some cr =>
          obtain ⟨c, rem⟩ := cr
          have hlen := utf8Step_tail_len hstep
          rw [utf8Valid_cons_some hstep] at hv
          simp only [List.length_cons, Nat.succ_le_succ_iff] at hf
          rw [utf8Sanitize_cons_some hstep, ih rem (by omega) hv,
            utf8Step_sound hstep]
  exact main l.length l (Nat.le_refl _) hv


theorem sortByKey_eq_self {l : List (List Nat × List (List Nat))}
    (h : keysSorted l = true) : sortByKey l = l := by
  induction l with
  | nil => rfl
  | cons a tl ih =>
    cases tl with
    | nil => rfl
    | cons b tl2 =>
      rw [keysSorted, Bool.and_eq_true] at h
      rw [sortByKey, ih h.2]
      simp [insertByKey, h.1]

theorem strListOfJsons_sanitized (vs : List (List Nat)) :
    strListOfJsons (vs.map fun v => Json.jstr (utf8Sanitize v)) =
      some (vs.map utf8Sanitize) := by
  induction vs with
  | nil => rfl
  | cons v vs ih => simp [strListOfJsons, jsonAsStr, ih]

theorem decodeHeaderEntries_enc (l : List (List Nat × List (List Nat))) :
    decodeHeaderEntries (l.map encodeHeaderEntry) =
      some (l.map fun kv => (utf8Sanitize kv.1, kv.2.map utf8Sanitize)) := by
  induction l with
  | nil => rfl
  | cons kv l ih =>
    simp only [List.map_cons, encodeHeaderEntry, decodeHeaderEntries, jsonAsStrList,
      strListOfJsons_sanitized, ih]

theorem jlookup_fields_id (v1 v2 v3 v4 v5 : Json) :
    jlookup [(keyID, v1), (keyURL, v2), (keyBody, v3), (keyHeader, v4), (keyMethod, v5)]
      keyID = some v1 := by rfl

theorem jlookup_fields_url (v1 v2 v3 v4 v5 : Json) :
    jlookup [(keyID, v1), (keyURL, v2), (keyBody, v3), (keyHeader, v4), (keyMethod, v5)]
      keyURL = some v2 := by rfl

theorem jlookup_fields_body (v1 v2 v3 v4 v5 : Json) :
    jlookup [(keyID, v1), (keyURL, v2), (keyBody, v3), (keyHeader, v4), (keyMethod, v5)]
      keyBody = some v3 := by rfl

theorem jlookup_fields_header (v1 v2 v3 v4 v5 : Json) :
    jlookup [(keyID, v1), (keyURL, v2), (keyBody, v3), (keyHeader, v4), (keyMethod, v5)]
      keyHeader = some v4 := by rfl

theorem jlookup_fields_method (v1 v2 v3 v4 v5 : Json) :
    jlookup [(keyID, v1), (keyURL, v2), (keyBody, v3), (keyHeader, v4), (keyMethod, v5)]
      keyMethod = some v5 := by rfl

theorem unmarshal_marshal (d : requestData) :
    unmarshalRequestData (marshalRequestData d) =
      some { ID := utf8Sanitize d.ID
             ReqURL := utf8Sanitize d.ReqURL
             ReqBody := utf8Sanitize d.ReqBody
             ReqHeader := sortByKey ((sortByKey d.ReqHeader).map fun kv =>
               (utf8Sanitize kv.1, kv.2.map utf8Sanitize))
             ReqMethod := utf8Sanitize d.ReqMethod } := by
  rw [marshalRequestData, unmarshalRequestData]
  simp only [getStrField, getHeaderField, jlookup_fields_id, jlookup_fields_url,
    jlookup_fields_body, jlookup_fields_header, jlookup_fields_method, jsonAsStr,
    decodeHeaderEntries_enc, Option.map_some']

theorem map_sanitize_header_of_valid {h : List (List Nat × List (List Nat))}
    (hv : ∀ kv ∈ h, utf8Valid kv.1 = true ∧ ∀ v ∈ kv.2, utf8Valid v = true) :
    (h.map fun kv => (utf8Sanitize kv.1, kv.2.map utf8Sanitize)) = h := by
  induction h with
  | nil => rfl
  | cons kv t ih =>
    have h1 := hv kv (List.mem_cons_self _ _)
    have hvals : ∀ v ∈ kv.2, utf8Sanitize v = v :=
      fun v hmem => utf8Sanitize_of_valid v (h1.2 v hmem)
    have : kv.2.map utf8Sanitize = kv.2 := by
      rw [List.map_congr_left hvals]
      exact List.map_id' kv.2
    simp only [List.map_cons, utf8Sanitize_of_valid kv.1 h1.1, this]
    rw [ih fun kv2 hm => hv kv2 (List.mem_cons_of_mem _ hm)]

theorem json_roundtrip_of_good (d : requestData) (h : goodRequestData d) :
    unmarshalRequestData (marshalRequestData d) = some d := by
  obtain ⟨h1, h2, h3, h4, hchain, hvals⟩ := h
  rw [unmarshal_marshal, sortByKey_eq_self hchain, map_sanitize_header_of_valid hvals,
    sortByKey_eq_self hchain, utf8Sanitize_of_valid _ h1, utf8Sanitize_of_valid _ h2,
    utf8Sanitize_of_valid _ h3, utf8Sanitize_of_valid _ h4]

theorem restAfter_append (p l : List Nat) : restAfter p (p ++ l) = some l := by
  induction p with
  | nil => rfl
  | cons a p ih => simp [restAfter, ih]

theorem bigEndianDigits_length (k : Nat) : ∀ n, (bigEndianDigits k n).length = k := by
  induction k with
  | zero => intro n; rfl
  | succ k ih => intro n; simp [bigEndianDigits, ih]

theorem hexFixed_length (k n : Nat) : (hexFixed k n).length = k := by
  simp [hexFixed, bigEndianDigits_length]

theorem hexDigitChar_mono :
    ∀ d1, d1 < 16 → ∀ d2, d2 < 16 → d1 < d2 → hexDigitChar d1 < hexDigitChar d2 := by
  decide

theorem lex_append_right (a : List Char) {x y : List Char}
    (h : List.Lex (· < ·) x y) : List.Lex (· < ·) (a ++ x) (a ++ y) := by
  induction a with
  | nil => exact h
  | cons c a ih => exact List.Lex.cons ih

theorem lex_append_left {x y : List Char} (u v : List Char)
    (h : List.Lex (· < ·) x y) (hlen : x.length = y.length) :
    List.Lex (· < ·) (x ++ u) (y ++ v) := by
  induction h with
  | nil => simp at hlen
  | @rel a as b bs hab => exact List.Lex.rel hab
  | @cons a as bs hr ih => exact List.Lex.cons (ih (by simpa using hlen))

theorem hexFixed_lex {k m n : Nat} (hmn : m < n) (hn : n < 16 ^ k) :
    List.Lex (· < ·) (hexFixed k m) (hexFixed k n) := by
  induction k generalizing m n with
  | zero =>
    rw [pow_zero] at hn
    omega
  | succ k ih =>
    have hpow : 0 < 16 ^ k := pow_pos (by norm_num) k
    have hdn : n / 16 ^ k < 16 := by
      rw [Nat.div_lt_iff_lt_mul hpow]
      rw [pow_succ] at hn
      omega
    have hdm : m / 16 ^ k ≤ n / 16 ^ k := Nat.div_le_div_right (le_of_lt hmn)
    simp only [hexFixed, bigEndianDigits, List.map_cons]
    rcases lt_or_eq_of_le hdm with hlt | heq
    · exact List.Lex.rel (hexDigitChar_mono _ (by omega) _ hdn hlt)
    · have h1 := Nat.div_add_mod m (16 ^ k)
      have h2 := Nat.div_add_mod n (16 ^ k)
      rw [heq] at h1
      have key : m % 16 ^ k < n % 16 ^ k := by omega
      have hmodn : n % 16 ^ k < 16 ^ k := Nat.mod_lt _ hpow
      rw [heq]
      exact List.Lex.cons (ih key hmodn)

/-- C1: with a configured limit of N bytes, a body of exactly N bytes is
accepted (status 202 and one stream append, under broker success), while a
body of more than N bytes is rejected with HTTP 500 and the Stream Writer's
append is never invoked (zero broker calls), whatever the broker would have
answered. -/
theorem size_limit_enforcement (env : envInfo) (r : HttpRequest) (idv : List Nat)
    (n : Nat) (hlim : env.RequestSizeLimit = (n : Int)) :
    (r.body.length = n →
      (handleRequest env idv none r).status = 202 ∧
        (handleRequest env idv none r).xaddCalls.length = 1) ∧
    (n < r.body.length → ∀ brokerErr,
      (handleRequest env idv brokerErr r).status = 500 ∧
        (handleRequest env idv brokerErr r).xaddCalls = []) := by
  constructor
  · intro hb
    rw [handleRequest, if_neg (by rw [hlim, hb]; omega)]
    exact ⟨rfl, rfl⟩
  · intro hb brokerErr
    rw [handleRequest, if_pos (by rw [hlim]; omega)]
    exact ⟨rfl, rfl⟩

/-- Witness for C1: at limit 2, the two-byte body is accepted and appended
once; the three-byte body is rejected with 500 and zero appends. -/
theorem size_limit_enforcement_witness :
    ((handleRequest envTwo (gs "id1") none reqTwo).status = 202 ∧
      (handleRequest envTwo (gs "id1") none reqTwo).xaddCalls.length = 1) ∧
    ((handleRequest envTwo (gs "id1") none reqThree).status = 500 ∧
      (handleRequest envTwo (gs "id1") none reqThree).xaddCalls = []) :=
  ⟨(size_limit_enforcement envTwo reqTwo (gs "id1") 2 (by decide)).1 (by decide),
   (size_limit_enforcement envTwo reqThree (gs "id1") 2 (by decide)).2 (by decide) none⟩

/-- C2 counterexample: serializing then deserializing the envelope whose
body is the raw byte 0xFF yields an envelope whose body is the replacement
character U+FFFD instead, so the round-trip does not preserve non-UTF-8
bodies. -/
theorem roundtrip_loses_invalid_utf8 :
    unmarshalRequestData (marshalRequestData reqDataRawByte) =
      some { reqDataRawByte with ReqBody := [0xEF, 0xBF, 0xBD] } ∧
    unmarshalRequestData (marshalRequestData reqDataRawByte) ≠ some reqDataRawByte := by
  exact ⟨by decide, by decide⟩

/-- C2 amended: for every envelope whose strings (id, url, body, method,
header keys and values) are valid UTF-8 and whose header map is in its
canonical key-sorted form, serializing then deserializing yields an equal
envelope — method, url, body, id and the header mapping with repeated
values in their order are all preserved exactly. -/
theorem serialization_roundtrip (d : requestData) (h : goodRequestData d) :
    unmarshalRequestData (marshalRequestData d) = some d :=
  json_roundtrip_of_good d h

/-- Witness for the amended C2 on a concrete envelope with a repeated
header value. -/
theorem serialization_roundtrip_witness :
    unmarshalRequestData (marshalRequestData reqDataGood) = some reqDataGood :=
  serialization_roundtrip reqDataGood (by unfold goodRequestData; decide)

/-- C3: when the configured certificate text parses (a PEM certificate
block is found and its payload parses), the Stream Writer is built as a TLS
client whose trust pool is built from that certificate text and whose
target is the parse of the configured broker address; when the certificate
is empty or unparseable it is a plain unencrypted client on the very same
configured address value; an empty certificate never parses; and parsing a
URL-form address yields exactly its host:port part, so both branches aim at
the same configured address. -/
theorem tls_connection_selection (env : envInfo) (parseDER : List Nat → Bool) :
    (∀ opt, appendCertsFromPEM parseDER env.TlsCert = true →
      redisParseURL env.RedisAddress = some opt →
      setUpRedis env (appendCertsFromPEM parseDER env.TlsCert) =
        some (RedisClient.tlsClient opt env.TlsCert)) ∧
    (appendCertsFromPEM parseDER env.TlsCert = false →
      setUpRedis env (appendCertsFromPEM parseDER env.TlsCert) =
        some (RedisClient.plainClient env.RedisAddress (gs "") 0)) ∧
    (env.TlsCert = [] → appendCertsFromPEM parseDER env.TlsCert = false) ∧
    (∀ hostPort, redisParseURL (gs "redis://" ++ hostPort) = some { addr := hostPort }) := by
  refine ⟨?_, ?_, ?_, ?_⟩
  · intro opt hc hp
    rw [hc]
    simp [setUpRedis, hp]
  · intro hc
    rw [hc]
    simp [setUpRedis]
  · intro he
    rw [he]
    rfl
  · intro hostPort
    simp [redisParseURL, restAfter_append]

/-- Witness for C3: a configuration with a PEM block yields the TLS client
on the parsed address; the no-certificate configuration yields the plain
client on the configured address. -/
theorem tls_connection_selection_witness :
    setUpRedis envWithCert (appendCertsFromPEM (fun _ => true) envWithCert.TlsCert) =
      some (RedisClient.tlsClient { addr := gs "broker:6379" } envWithCert.TlsCert) ∧
    setUpRedis envNoScheme (appendCertsFromPEM (fun _ => true) envNoScheme.TlsCert) =
      some (RedisClient.plainClient envNoScheme.RedisAddress (gs "") 0) :=
  ⟨(tls_connection_selection envWithCert (fun _ => true)).1 { addr := gs "broker:6379" }
      (by decide) (by decide),
   (tls_connection_selection envNoScheme (fun _ => true)).2.1 (by decide)⟩

/-- C4: whenever the broker append returns an error, the handler responds
500 with an empty body and one of its log lines contains the request's
generated identifier as a contiguous substring; whenever the append
succeeds, it responds 202 (Accepted) with an empty body. -/
theorem broker_failure_propagation (env : envInfo) (r : HttpRequest)
    (idv e : List Nat) (hb : (r.body.length : Int) ≤ env.RequestSizeLimit) :
    ((handleRequest env idv (some e) r).status = 500 ∧
      (handleRequest env idv (some e) r).respBody = [] ∧
      ∃ lg ∈ (handleRequest env idv (some e) r).logs, List.IsInfix idv lg) ∧
    ((handleRequest env idv none r).status = 202 ∧
      (handleRequest env idv none r).respBody = []) := by
  have hcond : ¬((r.body.length : Int) > env.RequestSizeLimit) := by omega
  constructor
  · rw [handleRequest, if_neg hcond]
    refine ⟨rfl, rfl, ?_⟩
    refine ⟨gs "Error asynchronous writing request to storage " ++ publishErrMsg idv e,
      List.mem_singleton.mpr rfl, ?_⟩
    refine ⟨gs "Error asynchronous writing request to storage " ++
      gs "failed to publish \"", gs "\": " ++ e, ?_⟩
    simp [publishErrMsg, List.append_assoc]
  · rw [handleRequest, if_neg hcond]
    exact ⟨rfl, rfl⟩

/-- Witness for C4 with a broker error text `boom` and a within-limit
request. -/
theorem broker_failure_propagation_witness :
    ((handleRequest envTwo (gs "id9") (some (gs "boom")) reqTwo).status = 500 ∧
      (handleRequest envTwo (gs "id9") (some (gs "boom")) reqTwo).respBody = [] ∧
      ∃ lg ∈ (handleRequest envTwo (gs "id9") (some (gs "boom")) reqTwo).logs,
        List.IsInfix (gs "id9") lg) ∧
    ((handleRequest envTwo (gs "id9") none reqTwo).status = 202 ∧
      (handleRequest envTwo (gs "id9") none reqTwo).respBody = []) :=
  broker_failure_propagation envTwo reqTwo (gs "id9") (gs "boom") (by decide)

/-- C5 (spec-modelled, the gouuidv6 generator is an external library):
for two successive generations the identifiers strictly increase in the
identifier's string ordering — a strictly later clock instant orders them
by timestamp, and a generation within the same clock tick is ordered by the
collision-breaking sequence suffix, consistent with generation sequence.
The bounds keep both components within their 16-hex-digit fields. -/
theorem identifier_monotonicity (st : UuidV6State) (t1 t2 : Nat)
    (_h1 : st.lastTs < 16 ^ 16) (_h2 : t1 < 16 ^ 16) (h3 : t2 < 16 ^ 16)
    (h4 : st.seq + 2 < 16 ^ 16) :
    uuidV6String (uuidGen st t1).2 < uuidV6String (uuidGen (uuidGen st t1).1 t2).2 := by
  rw [String.lt_iff_toList_lt]
  by_cases ha : st.lastTs < t1
  · rw [uuidGen, if_pos ha]
    by_cases hb : t1 < t2
    · rw [uuidGen, if_pos hb]
      dsimp only
      exact lex_append_left _ _ (hexFixed_lex hb h3)
        ((hexFixed_length 16 t1).trans (hexFixed_length 16 t2).symm)
    · rw [uuidGen, if_neg hb]
      dsimp only
      exact lex_append_right _ (hexFixed_lex (by omega) (by omega))
  · rw [uuidGen, if_neg ha]
    by_cases hb : st.lastTs < t2
    · rw [uuidGen, if_pos hb]
      dsimp only
      exact lex_append_left _ _ (hexFixed_lex hb h3)
        ((hexFixed_length 16 st.lastTs).trans (hexFixed_length 16 t2).symm)
    · rw [uuidGen, if_neg hb]
      dsimp only
      exact lex_append_right _ (hexFixed_lex (by omega) (by omega))

/-- Witness for C5: two generations in the same clock tick (t1 = t2 = 5)
from the fresh generator state. -/
theorem identifier_monotonicity_witness :
    uuidV6String (uuidGen ⟨0, 0⟩ 5).2 <
      uuidV6String (uuidGen (uuidGen ⟨0, 0⟩ 5).1 5).2 :=
  identifier_monotonicity ⟨0, 0⟩ 5 5 (by norm_num) (by norm_num) (by norm_num)
    (by norm_num)

/-- C6: with header `Async-Original-Host: example.com` and request path
plus query `/v1/foo?x=1`, the envelope's reconstructed url field equals
`http://example.com/v1/foo?x=1`. -/
theorem url_reconstruction :
    (buildRequestData (gs "id0") reqC6).ReqURL = gs "http://example.com/v1/foo?x=1" := by
  decide

/-- C7 counterexample: with no certificate configured and the scheme-less
(unparseable) broker address `localhost:6379`, startup is not fatal —
contrary to the claim, the address never reaches the URL parser and a plain
client is constructed, even under the most permissive DER parser. -/
theorem startup_not_fatal_without_cert :
    redisParseURL envNoScheme.RedisAddress = none ∧
    setUpRedis envNoScheme (appendCertsFromPEM (fun _ => true) envNoScheme.TlsCert) =
      some (RedisClient.plainClient (gs "localhost:6379") (gs "") 0) := by
  exact ⟨by decide, by decide⟩

/-- C7 amended: connection setup at process start is fatal exactly when a
trust certificate was found in configuration and the broker address is
unparseable; when no certificate is found the process always starts,
whatever the broker address, which is then used verbatim without
parsing. -/
theorem startup_fatal_iff (env : envInfo) (certFound : Bool) :
    setUpRedis env certFound = none ↔
      certFound = true ∧ redisParseURL env.RedisAddress = none := by
  cases certFound
  · simp [setUpRedis]
  · cases hp : redisParseURL env.RedisAddress
    · simp [setUpRedis, hp]
    · simp [setUpRedis, hp]

/-- Witness for the amended C7: with a certificate found and the
scheme-less address, setup is fatal. -/
theorem startup_fatal_iff_witness :
    setUpRedis envNoScheme true = none :=
  (startup_fatal_iff envNoScheme true).mpr ⟨rfl, by decide⟩

/-- C8: for every within-limit request the single appended entry carries
the configured stream name and the payload map {"data": serialized
envelope}; the identifier reaches the broker only inside that serialized
envelope: the XAdd call of the write operation is identical under any other
identifier argument, the identifier being used solely to build the error
value returned on broker failure. -/
theorem append_payload_shape (env : envInfo) (r : HttpRequest) (idv idv2 e : List Nat)
    (hb : (r.body.length : Int) ≤ env.RequestSizeLimit) :
    (∀ brokerErr, (handleRequest env idv brokerErr r).xaddCalls =
      [{ stream := env.StreamName,
         values := [(keyData, marshalRequestData (buildRequestData idv r))] }]) ∧
    (∀ j brokerErr, (write env j idv brokerErr).1 = (write env j idv2 brokerErr).1) ∧
    (∀ j, (write env j idv (some e)).2 = Except.error (publishErrMsg idv e)) := by
  have hcond : ¬((r.body.length : Int) > env.RequestSizeLimit) := by omega
  refine ⟨?_, fun j brokerErr => rfl, fun j => rfl⟩
  intro brokerErr
  rw [handleRequest, if_neg hcond]
  cases brokerErr
  · rfl
  · rfl

/-- Witness for C8: concrete appended entry and identifier-independence of
the XAdd call. -/
theorem append_payload_shape_witness :
    (handleRequest envTwo (gs "idA") none reqTwo).xaddCalls =
      [{ stream := envTwo.StreamName,
         values := [(keyData, marshalRequestData (buildRequestData (gs "idA") reqTwo))] }] ∧
    (write envTwo (Json.jstr []) (gs "idA") none).1 =
      (write envTwo (Json.jstr []) (gs "idB") none).1 :=
  ⟨(append_payload_shape envTwo reqTwo (gs "idA") (gs "idB") (gs "err") (by decide)).1 none,
   (append_payload_shape envTwo reqTwo (gs "idA") (gs "idB") (gs "err") (by decide)).2.1
      (Json.jstr []) none⟩

/-- C9: when the Async-Original-Host header is absent the handler does not
fail: the envelope's url is "http://" concatenated directly with the
request path and query (empty host component), and processing continues to
the stream append (202 and one append under broker success). -/
theorem missing_host_header (env : envInfo) (r : HttpRequest) (idv : List Nat)
    (hh : headerGet r.headers hostHeaderKey = [])
    (hb : (r.body.length : Int) ≤ env.RequestSizeLimit) :
    (buildRequestData idv r).ReqURL = gs "http://" ++ r.urlStr ∧
    (handleRequest env idv none r).status = 202 ∧
    (handleRequest env idv none r).xaddCalls.length = 1 := by
  have hcond : ¬((r.body.length : Int) > env.RequestSizeLimit) := by omega
  refine ⟨?_, ?_, ?_⟩
  · show gs "http://" ++ headerGet r.headers hostHeaderKey ++ r.urlStr = _
    rw [hh]
    simp
  · rw [handleRequest, if_neg hcond]
    rfl
  · rw [handleRequest, if_neg hcond]
    rfl

/-- Witness for C9 on a host-header-less request with empty body. -/
theorem missing_host_header_witness :
    (buildRequestData (gs "id2") reqNoHost).ReqURL = gs "http://" ++ reqNoHost.urlStr ∧
    (handleRequest envTwo (gs "id2") none reqNoHost).status = 202 ∧
    (handleRequest envTwo (gs "id2") none reqNoHost).xaddCalls.length = 1 :=
  missing_host_header envTwo reqNoHost (gs "id2") (by decide) (by decide)

/-- C10: with the int64 default limit 0 (REQUEST_SIZE_LIMIT unset), every
request with a non-empty body is rejected with HTTP 500 and no append
occurs, while a request with an empty body is still accepted and
appended. -/
theorem zero_limit_behaviour (env : envInfo) (r : HttpRequest) (idv : List Nat)
    (hlim : env.RequestSizeLimit = 0) :
    (r.body ≠ [] → ∀ brokerErr,
      (handleRequest env idv brokerErr r).status = 500 ∧
        (handleRequest env idv brokerErr r).xaddCalls = []) ∧
    (r.body = [] →
      (handleRequest env idv none r).status = 202 ∧
        (handleRequest env idv none r).xaddCalls.length = 1) := by
  constructor
  · intro hne brokerErr
    have hlen : 0 < r.body.length := List.length_pos.mpr hne
    rw [handleRequest, if_pos (by rw [hlim]; omega)]
    exact ⟨rfl, rfl⟩
  · intro hem
    rw [handleRequest, if_neg (by rw [hlim, hem]; decide)]
    exact ⟨rfl, rfl⟩

/-- Witness for C10: under limit 0 the two-byte body is rejected with no
append; the empty body is accepted with one append. -/
theorem zero_limit_behaviour_witness :
    ((handleRequest envNoScheme (gs "id3") none reqTwo).status = 500 ∧
      (handleRequest envNoScheme (gs "id3") none reqTwo).xaddCalls = []) ∧
    ((handleRequest envNoScheme (gs "id3") none reqNoHost).status = 202 ∧
      (handleRequest envNoScheme (gs "id3") none reqNoHost).xaddCalls.length = 1) :=
  ⟨(zero_limit_behaviour envNoScheme reqTwo (gs "id3") (by decide)).1 (by decide) none,
   (zero_limit_behaviour envNoScheme reqNoHost (gs "id3") (by decide)).2 (by decide)⟩
